import Mathlib

/-
Shallow embedding of src/3D4_hip.py: isothermal finite hyperelasticity
(Arruda-Boyce model) driven by a fixed-step quasi-static stretch ramp.

Kinematics and constitutive subroutines (source lines 147-199) act
pointwise on the displacement gradient: a displacement field u enters
F_calc only through Identity(3) + grad(u), so a field is represented
here by the value H of grad(u) at an arbitrary material point, a real
3x3 matrix.  Python float arithmetic is modelled by exact real
arithmetic; the fractional powers J**(-2/3) and z**2.0 are Real.rpow.

The module-level line 206 binds J = det(F_calc(u)) for the global
displacement u taken from the field vector w; the body of
lambdaBar_calc (line 155) reads that module-level J, not a local one.
The embedding makes this explicit: lambdaBar_calc (and everything
downstream of it) takes the module-level Jacobian Jglob as its first
parameter.
-/

noncomputable section Kinematics

open Matrix

open scoped Classical

abbrev Mat3 := Matrix (Fin 3) (Fin 3) ℝ

/-- Ground state shear modulus, source line 95: Gshear_0 = 280.0 (kPa). -/
def Gshear_0 : ℝ := 280.0

/-- Locking stretch, source line 96: lambdaL = 5.12. -/
def lambdaL : ℝ := 5.12

/-- Bulk modulus, source line 97: Kbulk = 1000.0 * Gshear_0. -/
def Kbulk : ℝ := 1000.0 * Gshear_0

/-- Deformation gradient, source lines 147-150: F = Identity(3) + grad(u). -/
def F_calc (H : Mat3) : Mat3 := 1 + H

/-- UFL deviator for 3x3 tensors: dev(A) = A - (tr(A)/3) Identity(3). -/
def dev (A : Mat3) : Mat3 := A - ((1 / 3) * A.trace) • (1 : Mat3)

/-- Effective stretch, source lines 152-158.  The code reads the
module-level J (bound at line 206 to det F of the global displacement
field), passed here explicitly as Jglob:
C = F.T*F; Cdis = J**(-2/3)*C; lambdaBar = sqrt(tr(Cdis)/3.0). -/
def lambdaBar_calc (Jglob : ℝ) (H : Mat3) : ℝ :=
  Real.sqrt (((Jglob ^ ((-2 : ℝ) / 3)) • ((F_calc H)ᵀ * F_calc H)).trace / 3)

/-- The effective stretch as the specification states it: the same
formula, but with the Jacobian computed from the function's own
argument — sqrt(tr(det(F(u))^(-2/3) FᵗF)/3). -/
def lambdaBar_claimed (H : Mat3) : ℝ :=
  Real.sqrt ((((F_calc H).det ^ ((-2 : ℝ) / 3)) • ((F_calc H)ᵀ * F_calc H)).trace / 3)

/-- Pade-approximation shear factor, source lines 160-167:
z = lambdaBar/lambdaL; z = conditional(gt(z,0.95), 0.95, z);
beta = z*(3.0 - z**2.0)/(1.0 - z**2.0);
zeta = (lambdaL/(3*lambdaBar))*beta. -/
def zeta_calc (Jglob : ℝ) (H : Mat3) : ℝ :=
  let lambdaBar := lambdaBar_calc Jglob H
  let z := lambdaBar / lambdaL
  let z := if 0.95 < z then 0.95 else z
  let beta := z * (3.0 - z ^ (2.0 : ℝ)) / (1.0 - z ^ (2.0 : ℝ))
  (lambdaL / (3 * lambdaBar)) * beta

/-- Generalized shear modulus, source lines 170-173: Gshear_0 * zeta. -/
def Gshear_AB_calc (Jglob : ℝ) (H : Mat3) : ℝ :=
  Gshear_0 * zeta_calc Jglob H

/-- Cauchy stress, source lines 178-186:
T = (1/J)*Gshear*dev(Bdis) - p*Id with J = det F, B = F*F.T,
Bdis = J**(-2/3)*B, Gshear = Gshear_AB_calc(u). -/
def T_calc (Jglob : ℝ) (H : Mat3) (p : ℝ) : Mat3 :=
  let F := F_calc H
  let J := F.det
  let B := F * Fᵀ
  let Bdis := (J ^ ((-2 : ℝ) / 3)) • B
  ((1 / J) * Gshear_AB_calc Jglob H) • dev Bdis - p • (1 : Mat3)

/-- Piola stress, source lines 191-199: Tmat = J * T * inv(F.T). -/
def Tmat_calc (Jglob : ℝ) (H : Mat3) (p : ℝ) : Mat3 :=
  let F := F_calc H
  let J := F.det
  J • (T_calc Jglob H p * (Fᵀ)⁻¹)

/-- The Cauchy stress exactly as the spec words it:
T(u,p) = (1/J)*G(u)*dev(J^(-2/3) F Fᵗ) - p*I. -/
def T_spec (Jglob : ℝ) (H : Mat3) (p : ℝ) : Mat3 :=
  ((1 / (F_calc H).det) * Gshear_AB_calc Jglob H) •
      dev (((F_calc H).det ^ ((-2 : ℝ) / 3)) • (F_calc H * (F_calc H)ᵀ)) -
    p • (1 : Mat3)

/-- The nominal stress exactly as the spec words it:
P(u,p) = J*T(u,p)*F^(-t), with F^(-t) the transpose of the inverse. -/
def P_spec (Jglob : ℝ) (H : Mat3) (p : ℝ) : Mat3 :=
  (F_calc H).det • (T_spec Jglob H p * ((F_calc H)⁻¹)ᵀ)

/-- Spec beta function: beta(z) = z*(3 - z^2)/(1 - z^2). -/
def betaSpec (z : ℝ) : ℝ := z * (3 - z ^ 2) / (1 - z ^ 2)

/-- Spec zeta: zeta = (lambdaL/(3 lambdaBar)) * beta(min(lambdaBar/lambdaL, 0.95)). -/
def zetaSpec (lam : ℝ) : ℝ :=
  (lambdaL / (3 * lam)) * betaSpec (min (lam / lambdaL) 0.95)

/-- Spec effective shear modulus: G = G0 * zeta. -/
def G_spec (lam : ℝ) : ℝ := Gshear_0 * zetaSpec lam

lemma rpow_two_eq (x : ℝ) : x ^ (2.0 : ℝ) = x ^ (2 : ℕ) := by
  rw [show (2.0 : ℝ) = ((2 : ℕ) : ℝ) by norm_num, Real.rpow_natCast]

lemma zeta_calc_eq_zetaSpec (Jglob : ℝ) (H : Mat3) :
    zeta_calc Jglob H = zetaSpec (lambdaBar_calc Jglob H) := by
  unfold zeta_calc zetaSpec betaSpec
  set lam := lambdaBar_calc Jglob H
  have hmin : (if 0.95 < lam / lambdaL then (0.95 : ℝ) else lam / lambdaL) =
      min (lam / lambdaL) 0.95 := by
    rcases lt_or_le 0.95 (lam / lambdaL) with h | h
    · rw [if_pos h, min_eq_right h.le]
    · rw [if_neg (not_lt.mpr h), min_eq_left h]
  simp only [hmin, rpow_two_eq]
  norm_num

lemma F_calc_zero : F_calc 0 = 1 := by
  simp [F_calc]

lemma lambdaBar_calc_zero (Jglob : ℝ) :
    lambdaBar_calc Jglob 0 = Real.sqrt (Jglob ^ ((-2 : ℝ) / 3)) := by
  unfold lambdaBar_calc
  rw [F_calc_zero]
  simp [Matrix.trace_smul, Matrix.trace_one, smul_eq_mul]

lemma lambdaBar_calc_one_zero : lambdaBar_calc 1 0 = 1 := by
  rw [lambdaBar_calc_zero, Real.one_rpow, Real.sqrt_one]

lemma rpow_eight : (8 : ℝ) ^ ((-2 : ℝ) / 3) = 1 / 4 := by
  have h8 : (8 : ℝ) = 2 ^ ((3 : ℕ) : ℝ) := by
    rw [Real.rpow_natCast]; norm_num
  rw [h8, ← Real.rpow_mul (by norm_num : (0 : ℝ) ≤ 2)]
  rw [show ((3 : ℕ) : ℝ) * ((-2 : ℝ) / 3) = ((-2 : ℤ) : ℝ) by push_cast; ring]
  rw [Real.rpow_intCast]
  norm_num

lemma lambdaBar_calc_eight_zero : lambdaBar_calc 8 0 = 1 / 2 := by
  rw [lambdaBar_calc_zero, rpow_eight,
    show (1 / 4 : ℝ) = (1 / 2 : ℝ) ^ 2 by norm_num,
    Real.sqrt_sq (by norm_num : (0 : ℝ) ≤ 1 / 2)]

end Kinematics

open Matrix

/-- C1: the claim says lambdaBar_calc(u) is a pure function of its
argument, with the Jacobian J computed from that same argument.  In the
source, line 155 reads the module-level J (the Jacobian of the global
field vector, line 206).  At the global Jacobian value 8 and argument
u = 0 the code returns 1/2 while the claimed pure formula gives 1, and
changing only the global Jacobian (8 versus 1) changes the result. -/
theorem lambdaBar_global_dependence_cex :
    lambdaBar_calc 8 0 ≠ lambdaBar_claimed 0 ∧
      lambdaBar_calc 8 0 ≠ lambdaBar_calc 1 0 := by
  have hclaimed : lambdaBar_claimed 0 = 1 := by
    unfold lambdaBar_claimed
    rw [F_calc_zero]
    simp [Matrix.trace_smul, Matrix.trace_one, smul_eq_mul]
  refine ⟨?_, ?_⟩
  · rw [lambdaBar_calc_eight_zero, hclaimed]; norm_num
  · rw [lambdaBar_calc_eight_zero, lambdaBar_calc_one_zero]; norm_num

/-- C1 (amended): lambdaBar_calc depends on the module-level Jacobian
Jglob as well as on its argument; whenever it is applied to the global
displacement itself — as at every call site in the program, where the
module-level J is det(F_calc(u)) for that same u — it returns the
claimed value sqrt(tr(J^(-2/3) FᵗF)/3) with J = det F(u). -/
theorem lambdaBar_callsite_agreement :
    ∀ H : Mat3, lambdaBar_calc (F_calc H).det H = lambdaBar_claimed H :=
  fun _ => rfl

lemma dev_smul_one (c : ℝ) : dev (c • (1 : Mat3)) = 0 := by
  unfold dev
  rw [Matrix.trace_smul, Matrix.trace_one]
  rw [show (1 / 3 : ℝ) * (c • ((Fintype.card (Fin 3) : ℝ))) = c by
    simp [smul_eq_mul]; ring]
  exact sub_self _

lemma dev_one_eq_zero : dev (1 : Mat3) = 0 := by
  have h : (1 : Mat3) = (1 : ℝ) • (1 : Mat3) := (one_smul ℝ (1 : Mat3)).symm
  rw [h, dev_smul_one]

lemma T_calc_ref (p : ℝ) : T_calc 1 0 p = (-p) • (1 : Mat3) := by
  unfold T_calc
  rw [F_calc_zero]
  simp only [Matrix.det_one, Matrix.transpose_one, Matrix.mul_one,
    Real.one_rpow, one_smul]
  rw [dev_one_eq_zero, smul_zero, zero_sub, neg_smul]

/-- C7: in the undeformed reference configuration u = 0 (where the
module-level Jacobian of the global field is det F(0) = 1),
F = Identity, det F = 1, the effective stretch is 1, and the deviatoric
part of the Cauchy stress vanishes for every pressure p — the material
is stress-free at rest. -/
theorem reference_state_stress_free :
    F_calc 0 = 1 ∧ (F_calc (0 : Mat3)).det = 1 ∧
      lambdaBar_calc (F_calc (0 : Mat3)).det 0 = 1 ∧
      ∀ p : ℝ, dev (T_calc (F_calc (0 : Mat3)).det 0 p) = 0 := by
  have hdet : (F_calc (0 : Mat3)).det = 1 := by
    rw [F_calc_zero, Matrix.det_one]
  refine ⟨F_calc_zero, hdet, ?_, ?_⟩
  · rw [hdet, lambdaBar_calc_one_zero]
  · intro p
    rw [hdet, T_calc_ref, dev_smul_one]

/-- C8: the Cauchy stress computed by T_calc equals the spec formula
T(u,p) = (1/J) G(u) dev(J^(-2/3) F Fᵗ) - p I, and the Piola stress
computed by Tmat_calc (which uses inv(F.T)) equals the spec formula
P(u,p) = J T(u,p) F^(-t) (transpose of the inverse). -/
theorem stress_formulas_match_spec :
    ∀ (Jglob : ℝ) (H : Mat3) (p : ℝ),
      T_calc Jglob H p = T_spec Jglob H p ∧
        Tmat_calc Jglob H p = P_spec Jglob H p := by
  intro Jg H p
  refine ⟨rfl, ?_⟩
  show (F_calc H).det • (T_calc Jg H p * ((F_calc H)ᵀ)⁻¹) =
    (F_calc H).det • (T_spec Jg H p * ((F_calc H)⁻¹)ᵀ)
  rw [Matrix.transpose_nonsing_inv]
  rfl

lemma lambdaL_pos : (0 : ℝ) < lambdaL := by norm_num [lambdaL]

lemma zetaSpec_bounds (lam : ℝ) (h : 0.9 * lambdaL ≤ lam) :
    0 ≤ zetaSpec lam ∧ zetaSpec lam ≤ 12 := by
  have hL : lambdaL = 5.12 := by norm_num [lambdaL]
  have hlam : (4.608 : ℝ) ≤ lam := by rw [hL] at h; linarith
  have hlampos : (0 : ℝ) < lam := by linarith
  unfold zetaSpec
  set z := min (lam / lambdaL) 0.95 with hz
  have hz1 : z ≤ 0.95 := min_le_right _ _
  have hz0 : (0.9 : ℝ) ≤ z := by
    refine le_min ?_ (by norm_num)
    rw [le_div_iff lambdaL_pos]
    linarith
  have hzpos : (0 : ℝ) ≤ z := by linarith
  have hd : (0.0975 : ℝ) ≤ 1 - z ^ 2 := by nlinarith
  have hdpos : (0 : ℝ) < 1 - z ^ 2 := by nlinarith
  have hn0 : (0 : ℝ) ≤ z * (3 - z ^ 2) := by nlinarith
  have hnub : z * (3 - z ^ 2) ≤ 2.85 := by nlinarith
  have hbeta0 : 0 ≤ betaSpec z := div_nonneg hn0 hdpos.le
  have hbetaub : betaSpec z ≤ 2.85 / 0.0975 := by
    unfold betaSpec
    rw [div_le_div_iff hdpos (by norm_num : (0 : ℝ) < 0.0975)]
    nlinarith
  have hf0 : 0 ≤ lambdaL / (3 * lam) :=
    div_nonneg lambdaL_pos.le (by linarith)
  have hfub : lambdaL / (3 * lam) ≤ 5.12 / 13.824 := by
    rw [div_le_div_iff (by linarith : (0 : ℝ) < 3 * lam)
      (by norm_num : (0 : ℝ) < 13.824)]
    rw [hL]; nlinarith
  constructor
  · exact mul_nonneg hf0 hbeta0
  · calc lambdaL / (3 * lam) * betaSpec z
        ≤ 5.12 / 13.824 * (2.85 / 0.0975) :=
          mul_le_mul hfub hbetaub hbeta0 (by norm_num)
      _ ≤ 12 := by norm_num

/-- C2: the effective shear modulus is G0 times
(lambdaL/(3 lambdaBar)) beta(z') with z' = min(lambdaBar/lambdaL, 0.95)
— the code's conditional clamp is exactly that min — the clamped
denominator 1 - z'^2 never vanishes, and whenever lambdaBar/lambdaL is
at least 0.9 (in particular as it approaches 1) the computed modulus
stays within the fixed bounds 0 ≤ G ≤ 3360 kPa. -/
theorem shearModulus_clamped_bounded :
    ∀ (Jglob : ℝ) (H : Mat3),
      Gshear_AB_calc Jglob H = G_spec (lambdaBar_calc Jglob H) ∧
        1 - (min (lambdaBar_calc Jglob H / lambdaL) 0.95) ^ 2 ≠ 0 ∧
        (0.9 * lambdaL ≤ lambdaBar_calc Jglob H →
          0 ≤ Gshear_AB_calc Jglob H ∧ Gshear_AB_calc Jglob H ≤ 3360) := by
  intro Jg H
  have heq : Gshear_AB_calc Jg H = G_spec (lambdaBar_calc Jg H) := by
    unfold Gshear_AB_calc G_spec
    rw [zeta_calc_eq_zetaSpec]
  refine ⟨heq, ?_, ?_⟩
  · have h0 : 0 ≤ lambdaBar_calc Jg H := Real.sqrt_nonneg _
    have hz0 : 0 ≤ min (lambdaBar_calc Jg H / lambdaL) 0.95 :=
      le_min (div_nonneg h0 lambdaL_pos.le) (by norm_num)
    have hz1 : min (lambdaBar_calc Jg H / lambdaL) 0.95 ≤ 0.95 :=
      min_le_right _ _
    have hpos : (0 : ℝ) < 1 - (min (lambdaBar_calc Jg H / lambdaL) 0.95) ^ 2 := by
      nlinarith
    exact hpos.ne'
  · intro hlam
    rw [heq]
    have hb := zetaSpec_bounds (lambdaBar_calc Jg H) hlam
    unfold G_spec
    constructor
    · exact mul_nonneg (by norm_num [Gshear_0]) hb.1
    · have hG : Gshear_0 = 280 := by norm_num [Gshear_0]
      rw [hG]; nlinarith [hb.2, hb.1]

lemma rpow_pow_neg18 : ((2 : ℝ) ^ (-(18 : ℝ))) ^ ((-2 : ℝ) / 3) = 4096 := by
  rw [← Real.rpow_mul (by norm_num : (0 : ℝ) ≤ 2)]
  rw [show (-(18 : ℝ)) * ((-2 : ℝ) / 3) = ((12 : ℕ) : ℝ) by push_cast; ring]
  rw [Real.rpow_natCast]
  norm_num

lemma lambdaBar_witness_val : lambdaBar_calc ((2 : ℝ) ^ (-(18 : ℝ))) 0 = 64 := by
  rw [lambdaBar_calc_zero, rpow_pow_neg18,
    show (4096 : ℝ) = 64 ^ 2 by norm_num,
    Real.sqrt_sq (by norm_num : (0 : ℝ) ≤ 64)]

/-- C2 witness: at the concrete global Jacobian 2^(-18) and argument
u = 0 the effective stretch is 64, far beyond the locking stretch, and
the clamped modulus is still within the proved bounds. -/
theorem shearModulus_clamped_bounded_witness :
    0.9 * lambdaL ≤ lambdaBar_calc ((2 : ℝ) ^ (-(18 : ℝ))) 0 ∧
      0 ≤ Gshear_AB_calc ((2 : ℝ) ^ (-(18 : ℝ))) 0 ∧
      Gshear_AB_calc ((2 : ℝ) ^ (-(18 : ℝ))) 0 ≤ 3360 := by
  have hlam : 0.9 * lambdaL ≤ lambdaBar_calc ((2 : ℝ) ^ (-(18 : ℝ))) 0 := by
    rw [lambdaBar_witness_val]; norm_num [lambdaL]
  have h := (shearModulus_clamped_bounded ((2 : ℝ) ^ (-(18 : ℝ))) 0).2.2 hlam
  exact ⟨hlam, h.1, h.2⟩

/-
Load-stepping driver, source lines 99-115 and 290-393.  Times, the
ramp, and the history arrays are exact rationals here; the while-guard
round(t + dt, 9) <= Ttot is modelled as t + dt <= Ttot, exact because
every time reached is an exact multiple of dt, on which rounding to
nine decimals is the identity (the float round exists only to absorb
accumulation error).  The Newton solver (line 359) is external to the
driver core: it is an oracle taking the step index, the freshly set
ramp time and the current field vector, returning the converged field,
or none when solver.solve() raises — exceptions are the only failure
channel the except-clause of lines 360-361 sees.  The reaction-stress
assembly of line 374 is likewise an oracle on the converged field. -/

/-- Simulation control parameters: gage length L0 (line 58), total
displacement dispTot, total time Ttot, and the step count (lines 104-110). -/
structure Params where
  L0 : ℚ
  dispTot : ℚ
  Ttot : ℚ
  numSteps : ℕ

/-- Axial stretch target, line 105: stretch = 3.0. -/
def stretch : ℚ := 3.0

/-- Loading rate, line 107: rate = 1.e0. -/
def rate : ℚ := 1

/-- The concrete parameters of this run: L0 = 15, dispTot = (stretch-1)*L0,
Ttot = (stretch-1)/rate, numSteps = 100 (lines 58, 104-110). -/
def hipParams : Params :=
  { L0 := 15
    dispTot := (stretch - 1) * 15
    Ttot := (stretch - 1) / rate
    numSteps := 100 }

/-- Fixed step size, line 110: dt = Ttot/numSteps. -/
def dtP (p : Params) : ℚ := p.Ttot / (p.numSteps : ℚ)

/-- Value of the dispRamp Expression, lines 113-115: dispTot*t/Ttot. -/
def rampValue (p : Params) (tv : ℚ) : ℚ := p.dispTot * tv / p.Ttot

/-- Driver state: current time t, step counter ii, the mutable time
attribute of the dispRamp Expression, the field vector w, the
previous-step snapshot w_old together with a count of how many times
line 367 has assigned it, the history arrays timeHist0/timeHist1, the
list of times written to the results file, and whether the loop was
left through the except-break of lines 360-361. -/
structure St (W : Type) where
  t : ℚ
  ii : ℕ
  rampT : ℚ
  w : W
  wOld : W
  wOldWrites : ℕ
  th0 : List ℚ
  th1 : List ℚ
  outLog : List ℚ
  aborted : Bool

/-- One iteration of the stepping loop body, lines 347-383: increment t
and ii, overwrite dispRamp.t with the new time, invoke the solver; on
an exception set the abort flag (the break); on convergence write the
results file, copy w into w_old, and record the imposed stretch
(L0 + dispTot*t/Ttot)/L0 and the reaction stress at index ii. -/
def stepBody {W : Type} (p : Params) (solve : ℕ → ℚ → W → Option W)
    (stress : W → ℚ) (s : St W) : St W :=
  let s1 : St W :=
    { s with t := s.t + dtP p, ii := s.ii + 1, rampT := s.t + dtP p }
  match solve s1.ii s1.rampT s1.w with
  | none => { s1 with aborted := true }
  | some wNew =>
      { s1 with
        w := wNew
        outLog := s1.outLog ++ [s1.t]
        wOld := wNew
        wOldWrites := s1.wOldWrites + 1
        th0 := s1.th0.set s1.ii ((p.L0 + p.dispTot * s1.t / p.Ttot) / p.L0)
        th1 := s1.th1.set s1.ii (stress wNew) }

/-- The while-loop of line 347, fuel-indexed.  An aborted state stops
the recursion immediately, modelling break. -/
def runSteps {W : Type} (p : Params) (solve : ℕ → ℚ → W → Option W)
    (stress : W → ℚ) : ℕ → St W → St W
  | 0, s => s
  | n + 1, s =>
      if s.aborted = false ∧ s.t + dtP p ≤ p.Ttot then
        runSteps p solve stress n (stepBody p solve stress s)
      else s

/-- Initial driver state, lines 103, 129-133, 290 and 337-344: t = 0,
counter ii = 0, timeHist0 and timeHist1 preallocated with numSteps+1
zeros, timeHist0[0] = 1, and the initial writeResults(0.0) call. -/
def initSt {W : Type} (p : Params) (w0 : W) : St W :=
  { t := 0, ii := 0, rampT := 0, w := w0, wOld := w0, wOldWrites := 0,
    th0 := (List.replicate (p.numSteps + 1) 0).set 0 1,
    th1 := List.replicate (p.numSteps + 1) 0,
    outLog := [0], aborted := false }

/-- The full run.  The guard fails after numSteps iterations; the spare
unit of fuel lets the guard itself end the loop. -/
def runDriver {W : Type} (p : Params) (solve : ℕ → ℚ → W → Option W)
    (stress : W → ℚ) (w0 : W) : St W :=
  runSteps p solve stress (p.numSteps + 1) (initSt p w0)

/-- Final stress-stretch report, lines 411-412: the plot of timeHist0
against timeHist1/1.E3, pairing entries positionally. -/
def stressReport {W : Type} (s : St W) : List (ℚ × ℚ) :=
  s.th0.zip (s.th1.map (fun y => y / 1000))

/-- End-of-run output, lines 385-393: fixed banner lines and the
elapsed wall-clock time.  No field of the final driver state is
printed. -/
def endReport {W : Type} (elapse : String) (_s : St W) : List String :=
  ["-----------------------------------------",
   "End computation",
   "------------------------------------------",
   "Elapsed real time:  " ++ elapse,
   "------------------------------------------"]

lemma runSteps_aborted_fix {W : Type} (p : Params)
    (solve : ℕ → ℚ → W → Option W) (stress : W → ℚ) :
    ∀ (n : ℕ) (s : St W), s.aborted = true →
      runSteps p solve stress n s = s := by
  intro n s hs
  cases n with
  | zero => rfl
  | succ n => simp [runSteps, hs]

lemma stepBody_of_none {W : Type} (p : Params)
    (solve : ℕ → ℚ → W → Option W) (stress : W → ℚ) (s : St W)
    (hs : solve (s.ii + 1) (s.t + dtP p) s.w = none) :
    stepBody p solve stress s =
      { s with t := s.t + dtP p, ii := s.ii + 1, rampT := s.t + dtP p,
               aborted := true } := by
  simp [stepBody, hs]

lemma stepBody_of_some {W : Type} (p : Params)
    (solve : ℕ → ℚ → W → Option W) (stress : W → ℚ) (s : St W) (wNew : W)
    (hs : solve (s.ii + 1) (s.t + dtP p) s.w = some wNew) :
    stepBody p solve stress s =
      { s with t := s.t + dtP p, ii := s.ii + 1, rampT := s.t + dtP p,
               w := wNew, outLog := s.outLog ++ [s.t + dtP p],
               wOld := wNew, wOldWrites := s.wOldWrites + 1,
               th0 := s.th0.set (s.ii + 1)
                 ((p.L0 + p.dispTot * (s.t + dtP p) / p.Ttot) / p.L0),
               th1 := s.th1.set (s.ii + 1) (stress wNew) } := by
  simp [stepBody, hs]

lemma runSteps_wOldWrites_count {W : Type} (p : Params)
    (solve : ℕ → ℚ → W → Option W) (stress : W → ℚ) :
    ∀ (n : ℕ) (s : St W), s.aborted = false →
      (runSteps p solve stress n s).wOldWrites + s.ii +
          (if (runSteps p solve stress n s).aborted = true then 1 else 0) =
        s.wOldWrites + (runSteps p solve stress n s).ii := by
  intro n
  induction n with
  | zero => intro s hs; simp [runSteps, hs]
  | succ n ih =>
    intro s hs
    rw [runSteps]
    by_cases hc : s.t + dtP p ≤ p.Ttot
    · rw [if_pos ⟨hs, hc⟩]
      cases hsol : solve (s.ii + 1) (s.t + dtP p) s.w with
      | none =>
        rw [stepBody_of_none p solve stress s hsol,
          runSteps_aborted_fix p solve stress n _ rfl]
        simp
        omega
      | some wNew =>
        have e := stepBody_of_some p solve stress s wNew hsol
        have hab : (stepBody p solve stress s).aborted = false := by
          rw [e]; exact hs
        have hii : (stepBody p solve stress s).ii = s.ii + 1 := by rw [e]
        have hw : (stepBody p solve stress s).wOldWrites = s.wOldWrites + 1 := by
          rw [e]
        have h2 := ih (stepBody p solve stress s) hab
        rw [hii, hw] at h2
        cases habR : (runSteps p solve stress n (stepBody p solve stress s)).aborted <;>
          simp only [habR] at h2 ⊢ <;> simp at h2 ⊢ <;> omega
    · rw [if_neg (fun h => hc h.2)]
      simp [hs]

/-- C3: any solver failure aborts the stepping loop immediately: a step
whose solve raises changes only the time, the counter and the ramp time
and sets the aborted flag — the history arrays, the output log, w and
w_old are untouched — and an aborted state is a fixed point of the
loop, so no retry or step-size reduction ever happens and the run ends
with all previously recorded output intact. -/
theorem stepAborted_semantics :
    (∀ (W : Type) (solve : ℕ → ℚ → W → Option W) (stress : W → ℚ)
        (n : ℕ) (s : St W), s.aborted = true →
        runSteps hipParams solve stress n s = s) ∧
      (∀ (W : Type) (solve : ℕ → ℚ → W → Option W) (stress : W → ℚ)
          (s : St W),
        solve (s.ii + 1) (s.t + dtP hipParams) s.w = none →
          stepBody hipParams solve stress s =
            { s with t := s.t + dtP hipParams, ii := s.ii + 1,
                     rampT := s.t + dtP hipParams, aborted := true }) :=
  ⟨fun W solve stress n s hs => runSteps_aborted_fix hipParams solve stress n s hs,
    fun W solve stress s hs => stepBody_of_none hipParams solve stress s hs⟩

/-- C4: w_old is a snapshot of the last converged increment: a failing
step leaves w_old and its write count unchanged, a converged step
assigns w_old the converged field and bumps the write count by exactly
one, and over any run every attempted step except a final aborted one
writes w_old exactly once. -/
theorem wOld_snapshot_discipline :
    (∀ (W : Type) (solve : ℕ → ℚ → W → Option W) (stress : W → ℚ)
        (s : St W),
      solve (s.ii + 1) (s.t + dtP hipParams) s.w = none →
        (stepBody hipParams solve stress s).wOld = s.wOld ∧
          (stepBody hipParams solve stress s).wOldWrites = s.wOldWrites) ∧
      (∀ (W : Type) (solve : ℕ → ℚ → W → Option W) (stress : W → ℚ)
          (s : St W) (wNew : W),
        solve (s.ii + 1) (s.t + dtP hipParams) s.w = some wNew →
          (stepBody hipParams solve stress s).wOld = wNew ∧
            (stepBody hipParams solve stress s).wOldWrites = s.wOldWrites + 1) ∧
      (∀ (W : Type) (solve : ℕ → ℚ → W → Option W) (stress : W → ℚ)
          (n : ℕ) (s : St W), s.aborted = false →
        (runSteps hipParams solve stress n s).wOldWrites + s.ii +
            (if (runSteps hipParams solve stress n s).aborted = true
              then 1 else 0) =
          s.wOldWrites + (runSteps hipParams solve stress n s).ii) := by
  refine ⟨?_, ?_, ?_⟩
  · intro W solve stress s hs
    rw [stepBody_of_none hipParams solve stress s hs]
    exact ⟨rfl, rfl⟩
  · intro W solve stress s wNew hs
    rw [stepBody_of_some hipParams solve stress s wNew hs]
    exact ⟨rfl, rfl⟩
  · exact fun W solve stress n s hs =>
      runSteps_wOldWrites_count hipParams solve stress n s hs

/-- C9: the Dirichlet ramp value is dispTot*t/Ttot — linear in time,
zero at t = 0 and the full displacement dispTot at t = Ttot — and each
loop iteration overwrites the ramp's time attribute with the new step
time, so a step's outcome never depends on the ramp time left over from
the previous increment (constraints are re-evaluated, not cached). -/
theorem dispRamp_linear_and_fresh :
    (∀ tv : ℚ, rampValue hipParams tv =
        hipParams.dispTot / hipParams.Ttot * tv) ∧
      rampValue hipParams 0 = 0 ∧
      rampValue hipParams hipParams.Ttot = hipParams.dispTot ∧
      (∀ (W : Type) (solve : ℕ → ℚ → W → Option W) (stress : W → ℚ)
          (s : St W),
        (stepBody hipParams solve stress s).rampT = s.t + dtP hipParams) ∧
      (∀ (W : Type) (solve : ℕ → ℚ → W → Option W) (stress : W → ℚ)
          (s : St W) (r : ℚ),
        stepBody hipParams solve stress { s with rampT := r } =
          stepBody hipParams solve stress s) := by
  refine ⟨?_, ?_, ?_, ?_, ?_⟩
  · intro tv; unfold rampValue; ring
  · unfold rampValue; norm_num
  · norm_num [rampValue, hipParams, stretch, rate]
  · intro W solve stress s
    cases hsol : solve (s.ii + 1) (s.t + dtP hipParams) s.w <;>
      simp [stepBody, hsol]
  · intro W solve stress s r
    rfl

/-- Solver oracle that always raises, for witnesses. -/
def svNone : ℕ → ℚ → ℕ → Option ℕ := fun _ _ _ => none

/-- Solver oracle that always converges, bumping the field, for witnesses. -/
def svSucc : ℕ → ℚ → ℕ → Option ℕ := fun _ _ w => some (w + 1)

/-- Reaction-stress oracle returning zero, for witnesses. -/
def stZero : ℕ → ℚ := fun _ => 0

/-- A concrete aborted driver state. -/
def sAbortedEx : St ℕ := { initSt hipParams 7 with aborted := true }

/-- A concrete state of a run that finished at the target time. -/
def sDoneEx : St ℕ := { initSt hipParams 7 with t := 2, ii := 100 }

/-- C3 witness: a concrete aborted state is a fixed point of three more
loop iterations, and a concrete failing first step changes only time,
counter, ramp time and the aborted flag. -/
theorem stepAborted_semantics_witness :
    sAbortedEx.aborted = true ∧
      runSteps hipParams svNone stZero 3 sAbortedEx = sAbortedEx ∧
      svNone ((initSt hipParams 7).ii + 1)
          ((initSt hipParams 7).t + dtP hipParams) (initSt hipParams 7).w =
        none ∧
      stepBody hipParams svNone stZero (initSt hipParams 7) =
        { initSt hipParams 7 with
            t := (initSt hipParams 7).t + dtP hipParams,
            ii := (initSt hipParams 7).ii + 1,
            rampT := (initSt hipParams 7).t + dtP hipParams,
            aborted := true } :=
  ⟨rfl, stepAborted_semantics.1 ℕ svNone stZero 3 sAbortedEx rfl, rfl,
    stepAborted_semantics.2 ℕ svNone stZero (initSt hipParams 7) rfl⟩

/-- C4 witness: concrete failing and converging steps, and a concrete
four-step run, instantiate the w_old discipline. -/
theorem wOld_snapshot_discipline_witness :
    svNone ((initSt hipParams 7).ii + 1)
        ((initSt hipParams 7).t + dtP hipParams) (initSt hipParams 7).w =
      none ∧
      (stepBody hipParams svNone stZero (initSt hipParams 7)).wOld = 7 ∧
      svSucc ((initSt hipParams 7).ii + 1)
          ((initSt hipParams 7).t + dtP hipParams) (initSt hipParams 7).w =
        some 8 ∧
      (stepBody hipParams svSucc stZero (initSt hipParams 7)).wOld = 8 ∧
      (stepBody hipParams svSucc stZero (initSt hipParams 7)).wOldWrites = 1 ∧
      (initSt hipParams 7).aborted = false ∧
      (runSteps hipParams svSucc stZero 4 (initSt hipParams 7)).wOldWrites +
          (initSt hipParams 7).ii +
          (if (runSteps hipParams svSucc stZero 4
                (initSt hipParams 7)).aborted = true then 1 else 0) =
        (initSt hipParams 7).wOldWrites +
          (runSteps hipParams svSucc stZero 4 (initSt hipParams 7)).ii :=
  ⟨rfl,
    (wOld_snapshot_discipline.1 ℕ svNone stZero (initSt hipParams 7) rfl).1,
    rfl,
    (wOld_snapshot_discipline.2.1 ℕ svSucc stZero (initSt hipParams 7) 8 rfl).1,
    (wOld_snapshot_discipline.2.1 ℕ svSucc stZero (initSt hipParams 7) 8 rfl).2,
    rfl,
    wOld_snapshot_discipline.2.2 ℕ svSucc stZero 4 (initSt hipParams 7) rfl⟩

/-- C5: the claim says the driver reports, on completion, whether it
finished at the target time or aborted early, and the count of steps
advanced.  The end-of-run output of lines 385-393 is identical for an
aborted run and for a completed one, so it conveys neither. -/
theorem endReport_indistinguishable_cex :
    endReport "0:00:42" sAbortedEx = endReport "0:00:42" sDoneEx ∧
      sAbortedEx.aborted ≠ sDoneEx.aborted ∧ sAbortedEx.ii ≠ sDoneEx.ii :=
  ⟨rfl, by decide, by decide⟩

/-- C5 (amended): on completion the driver prints only fixed banner
lines and the elapsed wall-clock time; this output is independent of
the final driver state, so it reports neither finished-versus-aborted
nor the count of steps advanced (those are inferable only from the
per-step progress lines printed during the run). -/
theorem endReport_state_independent :
    ∀ (W : Type) (elapse : String) (s1 s2 : St W),
      endReport elapse s1 = endReport elapse s2 ∧
        "End computation" ∈ endReport elapse s1 :=
  fun _ _ _ _ => ⟨rfl, by simp [endReport]⟩

lemma hip_dt : dtP hipParams = 1 / 50 := by
  norm_num [dtP, hipParams, stretch, rate]

lemma hip_Ttot : hipParams.Ttot = 2 := by
  norm_num [hipParams, stretch, rate]

lemma hip_guard (m : ℕ) (hm : m ≤ 99) :
    (m : ℚ) * dtP hipParams + dtP hipParams ≤ hipParams.Ttot := by
  rw [hip_dt, hip_Ttot]
  have h : (m : ℚ) ≤ 99 := by exact_mod_cast hm
  linarith

lemma hip_L0 : hipParams.L0 = 15 := by norm_num [hipParams]

lemma hip_dispTot : hipParams.dispTot = 30 := by
  norm_num [hipParams, stretch]

/-- The imposed axial stretch recorded at step j, line 370:
(L0 + dispTot*t/Ttot)/L0 at the step time t = j*dt. -/
def imposedStretchAt (j : ℕ) : ℚ :=
  (hipParams.L0 +
    hipParams.dispTot * ((j : ℚ) * dtP hipParams) / hipParams.Ttot) /
      hipParams.L0

lemma imposedStretchAt_eq (j : ℕ) : imposedStretchAt j = 1 + (j : ℚ) / 50 := by
  unfold imposedStretchAt
  rw [hip_dt, hip_Ttot, hip_L0, hip_dispTot]
  ring

lemma initSt_ii {W : Type} (p : Params) (w0 : W) : (initSt p w0).ii = 0 := rfl

lemma initSt_t {W : Type} (p : Params) (w0 : W) : (initSt p w0).t = 0 := rfl

lemma initSt_th0 {W : Type} (p : Params) (w0 : W) :
    (initSt p w0).th0 = (List.replicate (p.numSteps + 1) 0).set 0 1 := rfl

lemma initSt_th1 {W : Type} (p : Params) (w0 : W) :
    (initSt p w0).th1 = List.replicate (p.numSteps + 1) 0 := rfl

lemma initSt_th0_len {W : Type} (w0 : W) :
    (initSt hipParams w0).th0.length = 101 := by
  rw [initSt_th0, List.length_set, List.length_replicate]
  rfl

lemma initSt_th1_len {W : Type} (w0 : W) :
    (initSt hipParams w0).th1.length = 101 := by
  rw [initSt_th1, List.length_replicate]
  rfl

lemma initSt_th0_zero {W : Type} (w0 : W) :
    (initSt hipParams w0).th0[0]? = some 1 := by
  rw [initSt_th0, List.getElem?_set_self]
  rw [List.length_replicate]
  omega

lemma run_ok {W : Type} (solve : ℕ → ℚ → W → Option W) (stress : W → ℚ)
    (hsv : ∀ (k : ℕ) (tv : ℚ) (w : W), (solve k tv w).isSome = true) :
    ∀ (n : ℕ) (s : St W), s.aborted = false →
      s.t = (s.ii : ℚ) * dtP hipParams → s.ii ≤ 100 → 100 ≤ s.ii + n →
      s.th0.length = 101 →
      (runSteps hipParams solve stress n s).aborted = false ∧
        (runSteps hipParams solve stress n s).ii = 100 ∧
        (runSteps hipParams solve stress n s).th0.length = 101 ∧
        (∀ j : ℕ, j ≤ s.ii →
          (runSteps hipParams solve stress n s).th0[j]? = s.th0[j]?) ∧
        (∀ j : ℕ, s.ii < j → j ≤ 100 →
          (runSteps hipParams solve stress n s).th0[j]? =
            some (imposedStretchAt j)) := by
  intro n
  induction n with
  | zero =>
    intro s hs ht h100 hn hl
    have hii : s.ii = 100 := by omega
    exact ⟨hs, hii, hl, fun j _ => rfl,
      fun j hj hj100 => absurd hj (by omega)⟩
  | succ n ih =>
    intro s hs ht h100 hn hl
    rcases Nat.lt_or_ge s.ii 100 with hlt | hge
    · have hguard : s.t + dtP hipParams ≤ hipParams.Ttot := by
        rw [ht]; exact hip_guard s.ii (by omega)
      rw [runSteps, if_pos ⟨hs, hguard⟩]
      obtain ⟨wNew, hsol⟩ := Option.isSome_iff_exists.mp
        (hsv (s.ii + 1) (s.t + dtP hipParams) s.w)
      have e := stepBody_of_some hipParams solve stress s wNew hsol
      have hab2 : (stepBody hipParams solve stress s).aborted = false := by
        rw [e]; exact hs
      have hii2 : (stepBody hipParams solve stress s).ii = s.ii + 1 := by
        rw [e]
      have hth02 : (stepBody hipParams solve stress s).th0 =
          s.th0.set (s.ii + 1)
            ((hipParams.L0 +
              hipParams.dispTot * (s.t + dtP hipParams) / hipParams.Ttot) /
                hipParams.L0) := by rw [e]
      have ht2 : (stepBody hipParams solve stress s).t =
          ((stepBody hipParams solve stress s).ii : ℚ) * dtP hipParams := by
        rw [e]
        show s.t + dtP hipParams = ((s.ii + 1 : ℕ) : ℚ) * dtP hipParams
        rw [ht]; push_cast; ring
      have hl2 : (stepBody hipParams solve stress s).th0.length = 101 := by
        rw [hth02, List.length_set]; exact hl
      have H := ih (stepBody hipParams solve stress s) hab2 ht2
        (by omega) (by omega) hl2
      refine ⟨H.1, H.2.1, H.2.2.1, ?_, ?_⟩
      · intro j hj
        have hu := H.2.2.2.1 j (by omega)
        rw [hu, hth02, List.getElem?_set_ne (by omega : s.ii + 1 ≠ j)]
      · intro j hjl hj100
        rcases Nat.eq_or_lt_of_le (Nat.succ_le_of_lt hjl) with hj | hj
        · have hu := H.2.2.2.1 j (by omega)
          rw [hu, hth02, ← hj,
            List.getElem?_set_self (by rw [hl]; omega)]
          have harg : s.t + dtP hipParams =
              ((s.ii + 1 : ℕ) : ℚ) * dtP hipParams := by
            rw [ht]; push_cast; ring
          rw [harg]
          rfl
        · exact H.2.2.2.2 j (by omega) hj100
    · have hii : s.ii = 100 := by omega
      have hguard : ¬ (s.t + dtP hipParams ≤ hipParams.Ttot) := by
        rw [ht, hii, hip_dt, hip_Ttot]; norm_num
      rw [runSteps, if_neg (fun h => hguard h.2)]
      exact ⟨hs, hii, hl, fun j _ => rfl,
        fun j hj hj100 => absurd hj (by omega)⟩

/-- C6: with stretch 3.0 and 100 fixed steps, when every step's solve
converges the recorded imposed-stretch series timeHist0 is exactly the
list whose entry ii is (L0 + dispTot*t/Ttot)/L0 at the step time
t = ii*dt, strictly increasing from 1 (entry 0) to 3 (entry 100). -/
theorem timeHist0_monotone_series :
    ∀ (W : Type) (solve : ℕ → ℚ → W → Option W) (stress : W → ℚ) (w0 : W),
      (∀ (k : ℕ) (tv : ℚ) (w : W), (solve k tv w).isSome = true) →
      (runDriver hipParams solve stress w0).th0 =
          (List.range 101).map (fun i : ℕ => imposedStretchAt i) ∧
        List.Chain' (· < ·) (runDriver hipParams solve stress w0).th0 ∧
        (runDriver hipParams solve stress w0).th0.head? = some 1 ∧
        (runDriver hipParams solve stress w0).th0.getLast? = some 3 := by
  intro W solve stress w0 hsv
  have H := run_ok solve stress hsv 101 (initSt hipParams w0) rfl
    (by rw [initSt_t, initSt_ii]; norm_num)
    (by rw [initSt_ii]; omega)
    (by rw [initSt_ii]; omega)
    (initSt_th0_len w0)
  rw [show runSteps hipParams solve stress 101 (initSt hipParams w0) =
    runDriver hipParams solve stress w0 from rfl] at H
  have hstretch0 : imposedStretchAt 0 = 1 := by
    rw [imposedStretchAt_eq]; norm_num
  have hmap : (runDriver hipParams solve stress w0).th0 =
      (List.range 101).map (fun i : ℕ => imposedStretchAt i) := by
    apply List.ext_getElem?
    intro j
    rcases Nat.lt_or_ge j 101 with hj | hj
    · rw [List.getElem?_map, List.getElem?_range hj, Option.map_some']
      rcases Nat.eq_zero_or_pos j with hj0 | hjpos
      · subst hj0
        rw [H.2.2.2.1 0 (by rw [initSt_ii]), initSt_th0_zero, hstretch0]
      · exact H.2.2.2.2 j (by rw [initSt_ii]; omega) (by omega)
    · rw [List.getElem?_eq_none (by rw [H.2.2.1]; omega),
        List.getElem?_eq_none]
      rw [List.length_map, List.length_range]
      omega
  have hmono : ∀ m : ℕ, m < 100 → imposedStretchAt m < imposedStretchAt (m + 1) := by
    intro m _
    rw [imposedStretchAt_eq, imposedStretchAt_eq]
    push_cast
    linarith
  refine ⟨hmap, ?_, ?_, ?_⟩
  · rw [hmap, List.chain'_map,
      show (101 : ℕ) = 100 + 1 from rfl, List.chain'_range_succ]
    exact hmono
  · rw [List.head?_eq_getElem? _, hmap, List.getElem?_map,
      List.getElem?_range (by omega : 0 < 101), Option.map_some', hstretch0]
  · rw [List.getLast?_eq_getElem? _, hmap, List.length_map, List.length_range]
    rw [List.getElem?_map, List.getElem?_range (by omega : 101 - 1 < 101),
      Option.map_some']
    rw [show (101 - 1 : ℕ) = 100 from rfl, imposedStretchAt_eq]
    norm_num

/-- Always-converging solver on the trivial field type, for witnesses. -/
def svUnit : ℕ → ℚ → Unit → Option Unit := fun _ _ _ => some ()

/-- Reaction-stress oracle on the trivial field type, for witnesses. -/
def stUnit : Unit → ℚ := fun _ => 0

/-- C6 witness: with the concrete always-converging solver the series
starts at 1 and ends at 3. -/
theorem timeHist0_monotone_series_witness :
    (∀ (k : ℕ) (tv : ℚ) (w : Unit), (svUnit k tv w).isSome = true) ∧
      (runDriver hipParams svUnit stUnit ()).th0.head? = some 1 ∧
      (runDriver hipParams svUnit stUnit ()).th0.getLast? = some 3 :=
  ⟨fun _ _ _ => rfl,
    (timeHist0_monotone_series Unit svUnit stUnit ()
      (fun _ _ _ => rfl)).2.2.1,
    (timeHist0_monotone_series Unit svUnit stUnit ()
      (fun _ _ _ => rfl)).2.2.2⟩ 

lemma hip_numSteps : hipParams.numSteps = 100 := rfl

lemma run_failAt {W : Type} (solve : ℕ → ℚ → W → Option W) (stress : W → ℚ)
    (f : ℕ)
    (hOk : ∀ (k : ℕ) (tv : ℚ) (w : W), k < f → (solve k tv w).isSome = true)
    (hFail : ∀ (tv : ℚ) (w : W), solve f tv w = none) (hf2 : f ≤ 100) :
    ∀ (n : ℕ) (s : St W), s.aborted = false → s.ii < f →
      s.t = (s.ii : ℚ) * dtP hipParams → f ≤ s.ii + n →
      s.th0.length = 101 → s.th1.length = 101 →
      (runSteps hipParams solve stress n s).aborted = true ∧
        (runSteps hipParams solve stress n s).ii = f ∧
        (runSteps hipParams solve stress n s).th0.length = 101 ∧
        (runSteps hipParams solve stress n s).th1.length = 101 ∧
        (∀ j : ℕ, j ≤ s.ii ∨ f ≤ j →
          (runSteps hipParams solve stress n s).th0[j]? = s.th0[j]? ∧
            (runSteps hipParams solve stress n s).th1[j]? = s.th1[j]?) ∧
        (∀ j : ℕ, s.ii < j → j < f →
          (runSteps hipParams solve stress n s).th0[j]? =
            some (imposedStretchAt j)) := by
  intro n
  induction n with
  | zero =>
    intro s hs hif ht hn hl0 hl1
    exact absurd hif (by omega)
  | succ n ih =>
    intro s hs hif ht hn hl0 hl1
    have hguard : s.t + dtP hipParams ≤ hipParams.Ttot := by
      rw [ht]; exact hip_guard s.ii (by omega)
    rw [runSteps, if_pos ⟨hs, hguard⟩]
    rcases Nat.lt_or_ge (s.ii + 1) f with hlt | hge
    · obtain ⟨wNew, hsol⟩ := Option.isSome_iff_exists.mp
        (hOk (s.ii + 1) (s.t + dtP hipParams) s.w hlt)
      have e := stepBody_of_some hipParams solve stress s wNew hsol
      have hab2 : (stepBody hipParams solve stress s).aborted = false := by
        rw [e]; exact hs
      have hii2 : (stepBody hipParams solve stress s).ii = s.ii + 1 := by
        rw [e]
      have hth02 : (stepBody hipParams solve stress s).th0 =
          s.th0.set (s.ii + 1)
            ((hipParams.L0 +
              hipParams.dispTot * (s.t + dtP hipParams) / hipParams.Ttot) /
                hipParams.L0) := by rw [e]
      have hth12 : (stepBody hipParams solve stress s).th1 =
          s.th1.set (s.ii + 1) (stress wNew) := by rw [e]
      have ht2 : (stepBody hipParams solve stress s).t =
          ((stepBody hipParams solve stress s).ii : ℚ) * dtP hipParams := by
        rw [e]
        show s.t + dtP hipParams = ((s.ii + 1 : ℕ) : ℚ) * dtP hipParams
        rw [ht]; push_cast; ring
      have hl02 : (stepBody hipParams solve stress s).th0.length = 101 := by
        rw [hth02, List.length_set]; exact hl0
      have hl12 : (stepBody hipParams solve stress s).th1.length = 101 := by
        rw [hth12, List.length_set]; exact hl1
      have H := ih (stepBody hipParams solve stress s) hab2 (by omega) ht2
        (by omega) hl02 hl12
      refine ⟨H.1, H.2.1, H.2.2.1, H.2.2.2.1, ?_, ?_⟩
      · intro j hj
        have hne : s.ii + 1 ≠ j := by omega
        have hu := H.2.2.2.2.1 j (by omega)
        constructor
        · rw [hu.1, hth02, List.getElem?_set_ne hne]
        · rw [hu.2, hth12, List.getElem?_set_ne hne]
      · intro j hjl hjr
        rcases Nat.eq_or_lt_of_le (Nat.succ_le_of_lt hjl) with hj | hj
        · have hu := (H.2.2.2.2.1 j (by omega)).1
          rw [hu, hth02, ← hj, List.getElem?_set_self (by rw [hl0]; omega)]
          have harg : s.t + dtP hipParams =
              ((s.ii + 1 : ℕ) : ℚ) * dtP hipParams := by
            rw [ht]; push_cast; ring
          rw [harg]
          rfl
        · exact H.2.2.2.2.2 j (by omega) hjr
    · have hfe : s.ii + 1 = f := by omega
      have hsol : solve (s.ii + 1) (s.t + dtP hipParams) s.w = none := by
        rw [hfe]; exact hFail _ _
      have e := stepBody_of_none hipParams solve stress s hsol
      rw [e, runSteps_aborted_fix hipParams solve stress n _ rfl]
      exact ⟨rfl, hfe, hl0, hl1, fun j _ => ⟨rfl, rfl⟩,
        fun j hjl hjr => absurd hjl (by omega)⟩

/-- C10: timeHist0 and timeHist1 are preallocated with numSteps+1 = 101
zero entries (only timeHist0[0] is set to 1) and written only on
converged steps; if the solver fails first at step f ≤ 100 the run
aborts with counter f, the converged prefix entries j < f of timeHist0
carry the imposed-stretch formula, every entry f ≤ j ≤ 100 of both
arrays is still zero — the stretch series drops from its last converged
value back to 0 — and the final stress-stretch report still pairs all
101 entries, trailing zeros included. -/
theorem history_trailing_zeros :
    ∀ (W : Type) (solve : ℕ → ℚ → W → Option W) (stress : W → ℚ) (w0 : W)
        (f : ℕ), 1 ≤ f → f ≤ 100 →
      (∀ (k : ℕ) (tv : ℚ) (w : W), k < f → (solve k tv w).isSome = true) →
      (∀ (tv : ℚ) (w : W), solve f tv w = none) →
      (runDriver hipParams solve stress w0).aborted = true ∧
        (runDriver hipParams solve stress w0).ii = f ∧
        (runDriver hipParams solve stress w0).th0.length = 101 ∧
        (∀ j : ℕ, j < f →
          (runDriver hipParams solve stress w0).th0[j]? =
            some (imposedStretchAt j)) ∧
        (∀ j : ℕ, f ≤ j → j ≤ 100 →
          (runDriver hipParams solve stress w0).th0[j]? = some 0 ∧
            (runDriver hipParams solve stress w0).th1[j]? = some 0) ∧
        (stressReport (runDriver hipParams solve stress w0)).length = 101 := by
  intro W solve stress w0 f hf1 hf2 hOk hFail
  have H := run_failAt solve stress f hOk hFail hf2 101 (initSt hipParams w0)
    rfl (by rw [initSt_ii]; omega) (by rw [initSt_t, initSt_ii]; norm_num)
    (by rw [initSt_ii]; omega) (initSt_th0_len w0) (initSt_th1_len w0)
  rw [show runSteps hipParams solve stress 101 (initSt hipParams w0) =
    runDriver hipParams solve stress w0 from rfl] at H
  refine ⟨H.1, H.2.1, H.2.2.1, ?_, ?_, ?_⟩
  · intro j hj
    rcases Nat.eq_zero_or_pos j with hj0 | hjpos
    · subst hj0
      rw [(H.2.2.2.2.1 0 (Or.inl (by rw [initSt_ii]))).1, initSt_th0_zero]
      rw [show imposedStretchAt 0 = 1 from by
        rw [imposedStretchAt_eq]; norm_num]
    · exact H.2.2.2.2.2 j (by rw [initSt_ii]; omega) hj
  · intro j hjf hj100
    have hu := H.2.2.2.2.1 j (Or.inr hjf)
    have hjne : (0 : ℕ) ≠ j := by omega
    constructor
    · rw [hu.1, initSt_th0, List.getElem?_set_ne hjne,
        List.getElem?_replicate, if_pos (by rw [hip_numSteps]; omega)]
    · rw [hu.2, initSt_th1, List.getElem?_replicate,
        if_pos (by rw [hip_numSteps]; omega)]
  · unfold stressReport
    rw [List.length_zip, List.length_map, H.2.2.1, H.2.2.2.1]
    norm_num

/-- Solver oracle converging for the first two steps and raising at
step 3, for the C10 witness. -/
def svFail3 : ℕ → ℚ → Unit → Option Unit :=
  fun k _ _ => if k < 3 then some () else none

/-- C10 witness: with the solver failing first at step 3 the run aborts
with counter 3 and entry 50 of both history arrays is still zero. -/
theorem history_trailing_zeros_witness :
    (1 : ℕ) ≤ 3 ∧ (3 : ℕ) ≤ 100 ∧
      (∀ (k : ℕ) (tv : ℚ) (w : Unit), k < 3 → (svFail3 k tv w).isSome = true) ∧
      (∀ (tv : ℚ) (w : Unit), svFail3 3 tv w = none) ∧
      (runDriver hipParams svFail3 stUnit ()).aborted = true ∧
      (runDriver hipParams svFail3 stUnit ()).ii = 3 ∧
      (runDriver hipParams svFail3 stUnit ()).th0[50]? = some 0 ∧
      (runDriver hipParams svFail3 stUnit ()).th1[50]? = some 0 := by
  have hOk : ∀ (k : ℕ) (tv : ℚ) (w : Unit), k < 3 →
      (svFail3 k tv w).isSome = true := by
    intro k tv w hk
    simp [svFail3, hk]
  have hFail : ∀ (tv : ℚ) (w : Unit), svFail3 3 tv w = none := by
    intro tv w
    simp [svFail3]
  have H := history_trailing_zeros Unit svFail3 stUnit () 3 (by omega)
    (by omega) hOk hFail
  have h50 := H.2.2.2.2.1 50 (by omega) (by omega)
  exact ⟨by omega, by omega, hOk, hFail, H.1, H.2.1, h50.1, h50.2⟩
